import Mathlib

/-!
Shallow embedding of the MonteCarlo dice simulator
(`src/montecarlo/MonteCarlo.py`): the `Die`, `Game` and `Analyzer`
classes, together with proofs of the specification's claims about them.

Labels ("faces") are drawn from an arbitrary linearly ordered type `α`
with decidable equality (the source permits all-string or all-numeric
faces, both of which Python can sort and compare); machine floats are
modelled exactly by `PyFloat` (a rational, or one of the three
non-finite values), since no claim depends on rounding.  Randomness is
an injected stream of rationals, mirroring `np.random.choice`'s
consumption of uniform draws.
-/

namespace MonteCarlo

/-- The error kinds raised by the source, one constructor per distinct
`raise` site relevant to the claims:
`noResultsYet` = `ValueError("No game has been played yet.")` in `Game.show`;
`invalidForm` = `ValueError("Invalid form. Use 'wide' or 'narrow'.")`;
`unknownLabel` = `IndexError("Not a valid face.")` in `Die.change_weight`;
`notNumeric` = `TypeError("Weight must be numeric.")` in `Die.change_weight`;
`invalidState` = the `ValueError` raised by `np.random.choice` when the
normalized weight vector is not a valid probability vector. -/
inductive Err : Type where
  | noResultsYet : Err
  | invalidForm : Err
  | unknownLabel : Err
  | notNumeric : Err
  | invalidState : Err
deriving DecidableEq, Repr

/-- A Python float value: either a finite value (modelled exactly as a
rational) or one of the non-finite floats `inf`, `-inf`, `nan`. -/
inductive PyFloat : Type where
  | finite : ℚ → PyFloat
  | inf : PyFloat
  | negInf : PyFloat
  | nan : PyFloat
deriving DecidableEq, Repr

/-- A Python value passed as `new_weight` to `Die.change_weight`,
abstracted by how `float(new_weight)` behaves on it: it either converts
(to a finite or non-finite float) or raises `ValueError`/`TypeError`. -/
inductive PyValue : Type where
  | num : ℚ → PyValue
  | infVal : PyValue
  | negInfVal : PyValue
  | nanVal : PyValue
  | nonNumeric : PyValue
deriving DecidableEq, Repr

/-- Python's `float(x)` conversion: `none` models the raised
`ValueError`/`TypeError`.  Note `float('inf')`, `float('nan')` and float
infinities/NaN themselves all convert successfully in Python. -/
def pyFloatOf : PyValue → Option PyFloat
  | .num q => some (.finite q)
  | .infVal => some .inf
  | .negInfVal => some .negInf
  | .nanVal => some .nan
  | .nonNumeric => none

/-- The finite value of a `PyFloat`, when it has one. -/
def PyFloat.toRat : PyFloat → Option ℚ
  | .finite q => some q
  | _ => none

/-- A `Die`'s private dataframe `__df`: the list of (face, weight) rows,
in face order.  Faces are unique (enforced at construction); weights are
initialized to `1.0` and mutated by `change_weight`. -/
abbrev Die (α : Type) := List (α × PyFloat)

/-- The faces (index) of the die's dataframe. -/
def Die.faces {α : Type} (d : Die α) : List α := d.map Prod.fst

/-- `Die.__init__`: every weight starts at `1.0` (here, requires the
face list itself; the NumPy-array and uniqueness checks are construction
preconditions tracked as hypotheses where needed). -/
def mkDie {α : Type} (faces : List α) : Die α :=
  faces.map (fun f => (f, PyFloat.finite 1))

/-- `Die.change_weight(face, new_weight)`: raises `IndexError` when the
face is not in the index, then tries `float(new_weight)`, raising
`TypeError` when conversion fails; otherwise stores the converted value
as that face's weight (`self.__df.loc[face, 'weight'] = new_weight`). -/
def change_weight {α : Type} [DecidableEq α] (d : Die α) (face : α)
    (new_weight : PyValue) : Except Err (Die α) :=
  if face ∈ d.faces then
    match pyFloatOf new_weight with
    | none => .error .notNumeric
    | some w => .ok (d.map (fun p => if p.1 = face then (p.1, w) else p))
  else .error .unknownLabel

/-- Convert a list of weights to their finite values; `none` as soon as
a non-finite weight appears (a non-finite weight makes the normalized
probability vector contain `inf`/`nan` so `np.random.choice` raises). -/
def toRats : List PyFloat → Option (List ℚ)
  | [] => some []
  | w :: ws =>
    match w.toRat, toRats ws with
    | some q, some qs => some (q :: qs)
    | _, _ => none

/-- Inverse-CDF selection over (face, weight) pairs: walk the cumulative
weights until the random point `r` falls inside a face's slice.  The
running `dflt` face makes the function total; `np.random.choice` always
lands inside a slice because its uniform draw is below the total. -/
def pickFrom {α : Type} : List (α × ℚ) → ℚ → α → α
  | [], _, dflt => dflt
  | (a, w) :: rest, r, _ => if r < w then a else pickFrom rest (r - w) a

/-- `Die.roll(times)`: normalizes the weights by their sum and samples
`times` faces with replacement.  `np.random.choice` raises `ValueError`
("probabilities contain NaN" / "probabilities are not non-negative" /
"probabilities do not sum to 1") exactly when some weight is non-finite,
the sum is zero (`0/0 = nan`), or some normalized probability is
negative; otherwise it returns a list of `times` faces, face `i` chosen
when the uniform draw scaled by the weight sum lands in slice `i`.
`rand k` is the k-th uniform draw in `[0, 1)`. -/
def roll {α : Type} (d : Die α) (times : Nat) (rand : Nat → ℚ) :
    Except Err (List α) :=
  match toRats (d.map Prod.snd) with
  | none => .error .invalidState
  | some qs =>
    if qs.sum = 0 then .error .invalidState
    else if qs.any (fun q => q / qs.sum < 0) then .error .invalidState
    else
      match d with
      | [] => .error .invalidState
      | (a₀, _) :: _ =>
        .ok ((List.range times).map
          (fun k => pickFrom ((d.map Prod.fst).zip qs) (rand k * qs.sum) a₀))

/-! ## Game -/

/-- A wide results table: one row per roll, one cell per die, cell
`(r, i)` holding the face rolled by die `i` on roll `r`. -/
abbrev Table (α : Type) := List (List α)

/-- Row view of `pd.DataFrame(results)` built from the per-die columns
`results[i]` (each of length `num_rolls`): row `r` collects entry `r`
of every column.  `pd.DataFrame({})` (no dice) has zero rows, hence the
empty guard. -/
def toRows {α : Type} (cols : List (List α)) (n : Nat) : Table α :=
  match cols with
  | [] => []
  | _ => (List.range n).map (fun r => cols.filterMap (fun c => c.get? r))

/-- A `Game`: the list of dice and the private `_play_df`, `none` until
a play has completed. -/
structure Game (α : Type) : Type where
  dice : List (Die α)
  playDf : Option (Table α)

/-- `Game.__init__(dice_list)`. -/
def mkGame {α : Type} (dice : List (Die α)) : Game α := ⟨dice, none⟩

/-- The loop body of `Game.play`: roll each die in order (`die i`
consuming the random stream `rand i`), collecting the per-die columns;
the first raised error propagates immediately. -/
def rollAll {α : Type} (dice : List (Die α)) (n : Nat)
    (rand : Nat → Nat → ℚ) (i : Nat) : Except Err (List (List α)) :=
  match dice with
  | [] => .ok []
  | d :: rest =>
    match roll d n (rand i) with
    | .error e => .error e
    | .ok col =>
      match rollAll rest n rand (i + 1) with
      | .error e => .error e
      | .ok cols => .ok (col :: cols)

/-- `Game.play(num_rolls)`: rolls every die, then assigns the assembled
wide dataframe to `self._play_df`.  If any die's `roll` raises, the
exception propagates before the assignment, so `_play_df` keeps its
prior value — the pair returned is (outcome, game state after the call). -/
def play {α : Type} (g : Game α) (numRolls : Nat) (rand : Nat → Nat → ℚ) :
    Except Err Unit × Game α :=
  match rollAll g.dice numRolls rand 0 with
  | .error e => (.error e, g)
  | .ok cols => (.ok (), { g with playDf := some (toRows cols numRolls) })

/-- The entries of one wide row in `df.stack()` order: `(roll, die,
outcome)`, die index increasing from `c0`. -/
def rowEntries {α : Type} (r : Nat) : Nat → List α → List (Nat × Nat × α)
  | _, [] => []
  | c0, v :: vs => (r, c0, v) :: rowEntries r (c0 + 1) vs

/-- `df.stack()` on the wide table from roll index `r0` on: one entry
per (roll, die) pair, ordered primarily by roll, secondarily by die —
the wide table's row-major cell order.  (The play table never contains
NaN, so stack's NaN-dropping never fires.) -/
def stackFrom {α : Type} : Nat → Table α → List (Nat × Nat × α)
  | _, [] => []
  | r0, row :: rest => rowEntries r0 0 row ++ stackFrom (r0 + 1) rest

/-- `df.stack()` of the whole table. -/
def stack {α : Type} (t : Table α) : List (Nat × Nat × α) := stackFrom 0 t

/-- The value returned by `Game.show`: the wide dataframe, or the
narrow (stacked, MultiIndex `(Roll, Die)`) one. -/
inductive ShowResult (α : Type) : Type where
  | wide : Table α → ShowResult α
  | narrow : List (Nat × Nat × α) → ShowResult α
deriving DecidableEq

/-- `Game.show(form)`: raises `ValueError("No game has been played
yet.")` when `_play_df is None` (checked first), returns a copy of the
wide table for `'wide'`, the stacked table for `'narrow'`, and raises
`ValueError("Invalid form. ...")` for any other form string. -/
def showForm {α : Type} (g : Game α) (form : String) :
    Except Err (ShowResult α) :=
  match g.playDf with
  | none => .error .noResultsYet
  | some t =>
    if form = "wide" then .ok (.wide t)
    else if form = "narrow" then .ok (.narrow (stack t))
    else .error .invalidForm

/-! ## Analyzer -/

/-- An `Analyzer`: holds `self.results`, the copy of the game's wide
table taken at construction time. -/
structure Analyzer (α : Type) : Type where
  results : Table α

/-- `Analyzer.__init__(game)`: delegates to `game.show(form='wide')`
and stores a copy of the returned wide table; the `show` error (if the
game has never been played) propagates.  `show g "wide"` can only
return a wide table, so the narrow branch is dead code. -/
def mkAnalyzer {α : Type} (g : Game α) : Except Err (Analyzer α) :=
  match showForm g "wide" with
  | .error e => .error e
  | .ok (.wide t) => .ok ⟨t⟩
  | .ok (.narrow _) => .error .invalidForm

/-- Occurrences of `x` in a list (`pandas` counts via `value_counts`). -/
def countOcc {α : Type} [DecidableEq α] (x : α) : List α → Nat
  | [] => 0
  | y :: ys => (if y = x then 1 else 0) + countOcc x ys

/-- `Analyzer.jackpot()`: `(self.results.nunique(axis=1) == 1).sum()` —
the number of rows with exactly one distinct value. -/
def jackpot {α : Type} [DecidableEq α] (a : Analyzer α) : Nat :=
  (a.results.filter (fun row => row.dedup.length = 1)).length

/-- Spec-side predicate, following the claim's words: a row is a
jackpot when "every cell in the row is equal" — nonempty with every
cell equal to the first (an empty row has zero distinct values, not
one).  Compared against the source's `nunique(axis=1) == 1` test. -/
def allCellsEqual {α : Type} [DecidableEq α] : List α → Bool
  | [] => false
  | x :: xs => xs.all (fun y => y = x)

/-- The union of all faces observed anywhere in the snapshot — the
column set of the dataframe produced by applying `value_counts` to each
row (pandas takes the union of the per-row result indices). -/
def allFaces {α : Type} [DecidableEq α] (t : Table α) : List α :=
  t.flatten.dedup

/-- One output row of `face_counts_per_roll`: for each column face, how
often it occurs in this roll's row; a face absent from the row gets the
count `0` (the `fillna(0).astype(int)` step). -/
def faceCountsRow {α : Type} [DecidableEq α] (faces : List α)
    (row : List α) : List (α × Nat) :=
  faces.map (fun f => (f, countOcc f row))

/-- `Analyzer.face_counts_per_roll()`: one output row per roll, one
column per face observed anywhere in the snapshot. -/
def face_counts_per_roll {α : Type} [DecidableEq α] (a : Analyzer α) :
    List (List (α × Nat)) :=
  a.results.map (faceCountsRow (allFaces a.results))

/-- The frequency table `series.value_counts()` of a list of keys: each
distinct key with its number of occurrences.  (pandas orders the result
by descending count; no claim depends on the order, and first-occurrence
order keeps the definition elementary.) -/
def valueCounts {β : Type} [DecidableEq β] (keys : List β) :
    List (β × Nat) :=
  keys.dedup.map (fun k => (k, countOcc k keys))

/-- `tuple(sorted(row))`: the order-independent key of a row. -/
def comboKey {α : Type} [LinearOrder α] (row : List α) : List α :=
  row.insertionSort (· ≤ ·)

/-- `Analyzer.combo_count()`: tally the rows by their sorted tuples. -/
def combo_count {α : Type} [LinearOrder α] (a : Analyzer α) :
    List (List α × Nat) :=
  valueCounts (a.results.map comboKey)

/-- `Analyzer.permutation_count()`: tally the rows by their original
(column-order) tuples. -/
def permutation_count {α : Type} [DecidableEq α] (a : Analyzer α) :
    List (List α × Nat) :=
  valueCounts a.results

/-! ## Narrow-to-wide reconstruction -/

/-- Split a flat list into chunks of `gm1 + 1` cells (auxiliary for
`unstack`, phrased with the chunk size minus one so the recursion is
visibly decreasing). -/
def unstackAux {α : Type} (gm1 : Nat) : List α → List (List α)
  | [] => []
  | x :: rest => (x :: rest.take gm1) :: unstackAux gm1 (rest.drop gm1)
termination_by l => l.length
decreasing_by
  simp only [List.length_drop, List.length_cons]
  omega

/-- Regroup the narrow table's outcome column back into wide rows of
`g` cells each (the round-trip direction of the claim C4 law). -/
def unstack {α : Type} (g : Nat) (l : List α) : List (List α) :=
  unstackAux (g - 1) l

/-- The row-major sequence of (roll, die) index pairs of an `n × g`
table — what the narrow table's MultiIndex must equal. -/
def rowMajorPairs (n g : Nat) : List (Nat × Nat) :=
  (List.range n).flatMap (fun r => (List.range g).map (fun c => (r, c)))

/-! ## Object-store model (for the snapshot-independence claim)

Python objects live on a heap and variables hold references; `play`
builds a *new* dataframe object and rebinds `_play_df` to it, and
`Analyzer.__init__` stores a `.copy()` of the wide table.  The store
below makes those references explicit: `tables` is the heap of
dataframe objects (an address is an index, allocation appends), the
game's `_play_df` is an optional address, and an analyzer's `results`
is an address.  No operation ever writes to an existing heap cell. -/

structure SysState (α : Type) : Type where
  tables : List (Table α)
  dice : List (Die α)
  gameDf : Option Nat

/-- `Game.play` against the store: on success a fresh dataframe is
allocated and `_play_df` rebound to it; on error the state is
untouched. -/
def playS {α : Type} (s : SysState α) (numRolls : Nat)
    (rand : Nat → Nat → ℚ) : Except Err Unit × SysState α :=
  match rollAll s.dice numRolls rand 0 with
  | .error e => (.error e, s)
  | .ok cols =>
    (.ok (), { s with
      tables := s.tables ++ [toRows cols numRolls],
      gameDf := some s.tables.length })

/-- `Die.change_weight` on the game's `i`-th die, against the store:
only that die's weight map is mutated. -/
def changeWeightS {α : Type} [DecidableEq α] (s : SysState α) (i : Nat)
    (face : α) (w : PyValue) : Except Err Unit × SysState α :=
  match s.dice.get? i with
  | none => (.error .unknownLabel, s)
  | some d =>
    match change_weight d face w with
    | .error e => (.error e, s)
    | .ok d' => (.ok (), { s with dice := s.dice.set i d' })

/-- `Analyzer.__init__` against the store: reads the game's wide table
and allocates a `.copy()` of it; the analyzer keeps the copy's address. -/
def mkAnalyzerS {α : Type} (s : SysState α) :
    Except Err (Nat × SysState α) :=
  match s.gameDf with
  | none => .error .noResultsYet
  | some addr =>
    match s.tables.get? addr with
    | none => .error .noResultsYet
    | some t => .ok (s.tables.length, { s with tables := s.tables ++ [t] })

/-- The snapshot an analyzer at address `a` sees in state `s`. -/
def analyzerTable {α : Type} (s : SysState α) (a : Nat) : Table α :=
  (s.tables.get? a).getD []

/-! ## Counting lemmas -/

theorem countOcc_nil {α : Type} [DecidableEq α] (x : α) :
    countOcc x ([] : List α) = 0 := rfl

theorem countOcc_cons {α : Type} [DecidableEq α] (x y : α) (l : List α) :
    countOcc x (y :: l) = (if y = x then 1 else 0) + countOcc x l := rfl

theorem countOcc_eq_zero {α : Type} [DecidableEq α] (x : α) (l : List α) :
    countOcc x l = 0 ↔ x ∉ l := by
  induction l with
  | nil => simp [countOcc]
  | cons y ys ih =>
    by_cases h : y = x
    · subst h; simp [countOcc]
    · simp only [countOcc, if_neg h, Nat.zero_add, ih, List.mem_cons]
      constructor
      · rintro hx (rfl | hmem)
        · exact h rfl
        · exact hx hmem
      · intro hx hmem
        exact hx (Or.inr hmem)

theorem countOcc_eq_length_filter {α : Type} [DecidableEq α] (x : α)
    (l : List α) : countOcc x l = (l.filter (fun y => y = x)).length := by
  induction l with
  | nil => rfl
  | cons y ys ih =>
    by_cases h : y = x
    · simp [countOcc, List.filter_cons, h, ih]
      omega
    · simp [countOcc, List.filter_cons, h, ih]

theorem countOcc_map {α β : Type} [DecidableEq β] (f : α → β) (y : β)
    (l : List α) :
    countOcc y (l.map f) = (l.filter (fun x => f x = y)).length := by
  induction l with
  | nil => rfl
  | cons z zs ih =>
    by_cases h : f z = y
    · simp [countOcc, List.filter_cons, h, ih]
      omega
    · simp [countOcc, List.filter_cons, h, ih]

theorem sum_map_split {α : Type} (l : List α) (f g : α → Nat) :
    (l.map (fun x => f x + g x)).sum = (l.map f).sum + (l.map g).sum := by
  induction l with
  | nil => rfl
  | cons y ys ih => simp [ih]; omega

theorem sum_indicator {α : Type} [DecidableEq α] (faces : List α) (a : α)
    (hnd : faces.Nodup) (ha : a ∈ faces) :
    (faces.map (fun f => if f = a then 1 else 0)).sum = 1 := by
  induction faces with
  | nil => cases ha
  | cons b fs ih =>
    rcases List.nodup_cons.mp hnd with ⟨hb, hnd'⟩
    rcases List.mem_cons.mp ha with rfl | h
    · have hz : (fs.map (fun x => if x = a then 1 else 0)).sum = 0 := by
        rw [List.sum_eq_zero]
        intro x hx
        rcases List.mem_map.mp hx with ⟨y, hy, hxy⟩
        have hya : y ≠ a := fun hya => hb (hya ▸ hy)
        simp [← hxy, hya]
      simp [hz]
    · have hba : b ≠ a := fun hba => hb (hba ▸ h)
      simp [hba, ih hnd' h]

theorem sum_countOcc_eq_length {α : Type} [DecidableEq α]
    (faces l : List α) (hnd : faces.Nodup) (hsub : ∀ x ∈ l, x ∈ faces) :
    (faces.map (fun f => countOcc f l)).sum = l.length := by
  induction l with
  | nil => simp [countOcc]
  | cons a l ih =>
    have ha : a ∈ faces := hsub a (List.mem_cons_self a l)
    have hrec : (faces.map (fun f => countOcc f l)).sum = l.length :=
      ih (fun x hx => hsub x (List.mem_cons_of_mem a hx))
    calc (faces.map (fun f => countOcc f (a :: l))).sum
        = (faces.map (fun f => (if a = f then 1 else 0) + countOcc f l)).sum := by
          simp only [countOcc_cons]
      _ = (faces.map (fun f => (if a = f then 1 else 0))).sum
            + (faces.map (fun f => countOcc f l)).sum := sum_map_split ..
      _ = 1 + l.length := by
          rw [hrec]
          congr 1
          have : (fun f => if a = f then 1 else 0)
              = (fun f => if f = a then 1 else 0) := by
            funext f
            by_cases h : f = a
            · subst h; rfl
            · rw [if_neg h, if_neg (fun haf => h haf.symm)]
          rw [this]
          exact sum_indicator faces a hnd ha
      _ = (a :: l).length := by simp [Nat.add_comm]

/-- The counts in `value_counts` sum to the number of tallied keys. -/
theorem valueCounts_sum {β : Type} [DecidableEq β] (keys : List β) :
    ((valueCounts keys).map Prod.snd).sum = keys.length := by
  unfold valueCounts
  rw [List.map_map]
  simpa using sum_countOcc_eq_length keys.dedup keys (List.nodup_dedup keys)
    (fun x hx => List.mem_dedup.mpr hx)

/-- A key occurring among the tallied keys appears in `value_counts`
with its occurrence count. -/
theorem mem_valueCounts {β : Type} [DecidableEq β] {k : β} {keys : List β}
    (h : k ∈ keys) : (k, countOcc k keys) ∈ valueCounts keys := by
  unfold valueCounts
  exact List.mem_map.mpr ⟨k, List.mem_dedup.mpr h, rfl⟩

/-! ## Roll and table-shape lemmas -/

theorem roll_ok_length {α : Type} {d : Die α} {times : Nat}
    {rand : Nat → ℚ} {l : List α} (h : roll d times rand = .ok l) :
    l.length = times := by
  unfold roll at h
  split at h
  · cases h
  · split at h
    · cases h
    · split at h
      · cases h
      · split at h
        · cases h
        · cases h
          simp

theorem pickFrom_mem {α : Type} (pairs : List (α × ℚ)) (r : ℚ) (dflt : α) :
    pickFrom pairs r dflt ∈ dflt :: pairs.map Prod.fst := by
  induction pairs generalizing r dflt with
  | nil => simp [pickFrom]
  | cons p rest ih =>
    rcases p with ⟨a, w⟩
    simp only [pickFrom, List.map_cons]
    by_cases hr : r < w
    · rw [if_pos hr]
      exact List.mem_cons.mpr (Or.inr (List.mem_cons_self a _))
    · rw [if_neg hr]
      exact List.mem_cons_of_mem dflt (ih (r - w) a)

theorem toRats_pos {α : Type} (d : Die α)
    (hw : ∀ p ∈ d, ∃ q : ℚ, p.2 = .finite q ∧ 0 < q) :
    ∃ qs, toRats (d.map Prod.snd) = some qs ∧ (∀ q ∈ qs, 0 < q)
      ∧ qs.length = d.length := by
  induction d with
  | nil => exact ⟨[], rfl, by simp, rfl⟩
  | cons p rest ih =>
    rcases hw p (List.mem_cons_self p rest) with ⟨q, hq, hqpos⟩
    rcases ih (fun x hx => hw x (List.mem_cons_of_mem p hx)) with
      ⟨qs, hqs, hpos, hlen⟩
    refine ⟨q :: qs, ?_, ?_, by simp [hlen]⟩
    · simp only [List.map_cons, toRats, hq, PyFloat.toRat, hqs]
    · intro x hx
      rcases List.mem_cons.mp hx with rfl | hx
      · exact hqpos
      · exact hpos x hx

theorem toRows_length {α : Type} (cols : List (List α)) (n : Nat)
    (hne : cols ≠ []) : (toRows cols n).length = n := by
  cases cols with
  | nil => exact absurd rfl hne
  | cons c cs => simp [toRows]

theorem filterMap_get_length {α : Type} (cols : List (List α)) (r : Nat)
    (h : ∀ c ∈ cols, r < c.length) :
    (cols.filterMap (fun c => c.get? r)).length = cols.length := by
  induction cols with
  | nil => rfl
  | cons c cs ih =>
    have hcr : r < c.length := h c (List.mem_cons_self c cs)
    have hc : c.get? r = some (c.get ⟨r, hcr⟩) := List.get?_eq_get hcr
    simp only [List.filterMap_cons, hc, List.length_cons]
    rw [ih (fun x hx => h x (List.mem_cons_of_mem c hx))]

theorem toRows_row_length {α : Type} (cols : List (List α)) (n : Nat)
    (hlen : ∀ c ∈ cols, c.length = n) :
    ∀ row ∈ toRows cols n, row.length = cols.length := by
  intro row hrow
  cases cols with
  | nil => cases hrow
  | cons c cs =>
    rcases List.mem_map.mp hrow with ⟨r, hr, hrowr⟩
    have hrn : r < n := List.mem_range.mp hr
    rw [← hrowr]
    exact filterMap_get_length (c :: cs) r
      (fun x hx => (hlen x hx) ▸ hrn)

theorem rollAll_ok_shape {α : Type} {dice : List (Die α)} {n : Nat}
    {rand : Nat → Nat → ℚ} {i : Nat} {cols : List (List α)}
    (h : rollAll dice n rand i = .ok cols) :
    cols.length = dice.length ∧ ∀ c ∈ cols, c.length = n := by
  induction dice generalizing i cols with
  | nil =>
    cases h
    exact ⟨rfl, by simp⟩
  | cons d rest ih =>
    simp only [rollAll] at h
    rcases hroll : roll d n (rand i) with e | col
    · rw [hroll] at h
      cases h
    · rw [hroll] at h
      rcases hrest : rollAll rest n rand (i + 1) with e | cols'
      · rw [hrest] at h
        cases h
      · rw [hrest] at h
        cases h
        rcases ih hrest with ⟨hlen, hc⟩
        refine ⟨by simp [hlen], ?_⟩
        intro c hc'
        rcases List.mem_cons.mp hc' with rfl | hc'
        · exact roll_ok_length hroll
        · exact hc c hc'

theorem play_ok {α : Type} {g : Game α} {n : Nat} {rand : Nat → Nat → ℚ}
    {g' : Game α} (h : play g n rand = (.ok (), g')) :
    ∃ cols, rollAll g.dice n rand 0 = .ok cols
      ∧ g'.playDf = some (toRows cols n) ∧ g'.dice = g.dice := by
  unfold play at h
  rcases hall : rollAll g.dice n rand 0 with e | cols
  · rw [hall] at h
    cases h
  · rw [hall] at h
    cases h
    exact ⟨cols, rfl, rfl, rfl⟩

theorem dedup_length_one_iff {α : Type} [DecidableEq α] (l : List α) :
    l.dedup.length = 1 ↔ allCellsEqual l = true := by
  cases l with
  | nil => simp [allCellsEqual]
  | cons x xs =>
    simp only [allCellsEqual, List.all_eq_true, decide_eq_true_eq]
    constructor
    · intro h y hy
      rcases List.length_eq_one.mp h with ⟨a, ha⟩
      have hx : x = a := by
        have hm : x ∈ (x :: xs).dedup :=
          List.mem_dedup.mpr (List.mem_cons_self x xs)
        rw [ha] at hm
        simpa using hm
      have hyy : y = a := by
        have hm : y ∈ (x :: xs).dedup :=
          List.mem_dedup.mpr (List.mem_cons_of_mem x hy)
        rw [ha] at hm
        simpa using hm
      rw [hyy, hx]
    · intro h
      have hall : ∀ b ∈ x :: xs, b = x := by
        intro b hb
        rcases List.mem_cons.mp hb with rfl | hb
        · rfl
        · exact h b hb
      have hrep : (x :: xs) = List.replicate (x :: xs).length x :=
        List.eq_replicate_of_mem hall
      rw [hrep, List.replicate_dedup (by simp)]
      rfl

/-! ## Stack lemmas -/

theorem rowEntries_outcomes {α : Type} (r c0 : Nat) (row : List α) :
    (rowEntries r c0 row).map (fun e => e.2.2) = row := by
  induction row generalizing c0 with
  | nil => rfl
  | cons v vs ih => simp [rowEntries, ih]

theorem stackFrom_outcomes {α : Type} (r0 : Nat) (t : Table α) :
    (stackFrom r0 t).map (fun e => e.2.2) = t.flatten := by
  induction t generalizing r0 with
  | nil => rfl
  | cons row rest ih => simp [stackFrom, rowEntries_outcomes, ih]

theorem rowEntries_pairs {α : Type} (r c0 : Nat) (row : List α) :
    (rowEntries r c0 row).map (fun e => (e.1, e.2.1))
      = (List.range' c0 row.length).map (fun c => (r, c)) := by
  induction row generalizing c0 with
  | nil => rfl
  | cons v vs ih => simp [rowEntries, ih, List.range'_succ]

theorem stackFrom_pairs {α : Type} (g : Nat) (t : Table α) (r0 : Nat)
    (hrect : ∀ row ∈ t, row.length = g) :
    (stackFrom r0 t).map (fun e => (e.1, e.2.1))
      = (List.range' r0 t.length).flatMap
          (fun r => (List.range g).map (fun c => (r, c))) := by
  induction t generalizing r0 with
  | nil => rfl
  | cons row rest ih =>
    simp only [stackFrom, List.map_append, List.length_cons,
      List.range'_succ, List.flatMap_cons]
    rw [rowEntries_pairs, hrect row (List.mem_cons_self row rest),
      ih (r0 + 1) (fun x hx => hrect x (List.mem_cons_of_mem row hx)),
      List.range_eq_range']

theorem sum_const_map {α : Type} (t : List α) (g : Nat) :
    (t.map (fun _ => g)).sum = t.length * g := by
  induction t with
  | nil => simp
  | cons x xs ih => simp [ih, Nat.succ_mul, Nat.add_comm]

theorem stack_length {α : Type} (g : Nat) (t : Table α)
    (hrect : ∀ row ∈ t, row.length = g) :
    (stack t).length = t.length * g := by
  have h1 : (stack t).length
      = ((stack t).map (fun e => e.2.2)).length := by simp
  unfold stack at h1 ⊢
  rw [h1, stackFrom_outcomes, List.length_flatten]
  rw [List.map_congr_left hrect]
  exact sum_const_map t g

theorem unstackAux_nil {α : Type} (gm1 : Nat) :
    unstackAux gm1 ([] : List α) = [] := by
  simp [unstackAux]

theorem unstackAux_cons {α : Type} (gm1 : Nat) (x : α) (rest : List α) :
    unstackAux gm1 (x :: rest)
      = (x :: rest.take gm1) :: unstackAux gm1 (rest.drop gm1) := by
  simp [unstackAux]

theorem unstack_flatten {α : Type} (g : Nat) (hg : 0 < g) (t : Table α)
    (hrect : ∀ row ∈ t, row.length = g) : unstack g t.flatten = t := by
  induction t with
  | nil =>
    unfold unstack
    exact unstackAux_nil (g - 1)
  | cons row rest ih =>
    have hrow : row.length = g := hrect row (List.mem_cons_self row rest)
    cases row with
    | nil =>
      rw [List.length_nil] at hrow
      omega
    | cons x xs =>
      have hxs : xs.length = g - 1 := by
        rw [List.length_cons] at hrow
        omega
      unfold unstack at ih ⊢
      rw [List.flatten_cons, List.cons_append, unstackAux_cons, ← hxs]
      have htake : (xs ++ rest.flatten).take xs.length = xs := by simp
      have hdrop : (xs ++ rest.flatten).drop xs.length = rest.flatten := by simp
      rw [htake, hdrop, hxs]
      rw [ih (fun x hx => hrect x (List.mem_cons_of_mem _ hx))]

theorem rollAll_error_of_first_fail {α : Type} (dice : List (Die α))
    (n : Nat) (rand : Nat → Nat → ℚ) (i0 i : Nat) (e : Err)
    (hi : i < dice.length)
    (he : roll (dice.get ⟨i, hi⟩) n (rand (i0 + i)) = .error e)
    (hok : ∀ j, (hj : j < i) →
      ∃ col, roll (dice.get ⟨j, Nat.lt_trans hj hi⟩) n (rand (i0 + j))
        = .ok col) :
    rollAll dice n rand i0 = .error e := by
  induction dice generalizing i0 i with
  | nil => cases hi
  | cons d rest ih =>
    cases i with
    | zero =>
      have he0 : roll d n (rand i0) = .error e := he
      simp only [rollAll]
      rw [he0]
    | succ k =>
      rcases hok 0 (Nat.succ_pos k) with ⟨col0, hcol0⟩
      have hcol0' : roll d n (rand i0) = .ok col0 := hcol0
      simp only [rollAll]
      rw [hcol0']
      have hk : k < rest.length := Nat.lt_of_succ_lt_succ hi
      have he' : roll (rest.get ⟨k, hk⟩) n (rand (i0 + (k + 1)))
          = .error e := he
      rw [show i0 + (k + 1) = (i0 + 1) + k by omega] at he'
      have hok' : ∀ j, (hj : j < k) →
          ∃ col, roll (rest.get ⟨j, Nat.lt_trans hj hk⟩) n
            (rand ((i0 + 1) + j)) = .ok col := by
        intro j hj
        rcases hok (j + 1) (Nat.succ_lt_succ hj) with ⟨col, hcol⟩
        have hcol' : roll (rest.get ⟨j, Nat.lt_trans hj hk⟩) n
            (rand (i0 + (j + 1))) = .ok col := hcol
        rw [show i0 + (j + 1) = (i0 + 1) + j by omega] at hcol'
        exact ⟨col, hcol'⟩
      rw [ih (i0 + 1) k hk he' hok']

/-! ## Sorted-key lemmas -/

/-- `tuple(sorted(row))` depends only on the multiset of the row. -/
theorem comboKey_of_perm {α : Type} [LinearOrder α] {r₁ r₂ : List α}
    (h : r₁.Perm r₂) : comboKey r₁ = comboKey r₂ :=
  List.eq_of_perm_of_sorted
    ((List.perm_insertionSort _ r₁).trans
      (h.trans (List.perm_insertionSort _ r₂).symm))
    (List.sorted_insertionSort _ r₁) (List.sorted_insertionSort _ r₂)

/-- Conversely, equal sorted keys mean equal multisets. -/
theorem perm_of_comboKey_eq {α : Type} [LinearOrder α] {r₁ r₂ : List α}
    (h : comboKey r₁ = comboKey r₂) : r₁.Perm r₂ := by
  have h₁ : (comboKey r₁).Perm r₁ := List.perm_insertionSort _ r₁
  have h₂ : (comboKey r₂).Perm r₂ := List.perm_insertionSort _ r₂
  exact h₁.symm.trans (h ▸ h₂)

/-! ## Claim theorems -/

/-- C1: `combo_count` keys each row by the sorted, order-independent
tuple of its cell values — the sorted key of a row equals that of
another row exactly when the rows hold the same multiset of outcomes —
so the combination key of any row `r` appears in the output with the
count of all rows holding `r`'s multiset in any column order, while
`permutation_count` keys each row by its original column-order tuple,
whose count tallies only rows identical as ordered tuples; on the table
`[[1,1],[3,2],[1,1]]` the permutations `[2,3]`/`[3,2]` would be kept
separate while both would feed the one sorted key `[2,3]`. -/
theorem combo_groups_permutation_separates {α : Type} [LinearOrder α]
    (a : Analyzer α) (r : List α) (hr : r ∈ a.results) :
    (∀ r₁ r₂ : List α, comboKey r₁ = comboKey r₂ ↔ r₁.Perm r₂)
    ∧ (comboKey r,
        (a.results.filter (fun row => comboKey row = comboKey r)).length)
        ∈ combo_count a
    ∧ (r, (a.results.filter (fun row => row = r)).length)
        ∈ permutation_count a
    ∧ combo_count (⟨[[2, 3], [3, 2]]⟩ : Analyzer ℕ) = [([2, 3], 2)]
    ∧ permutation_count (⟨[[2, 3], [3, 2]]⟩ : Analyzer ℕ)
        = [([2, 3], 1), ([3, 2], 1)] := by
  refine ⟨fun r₁ r₂ => ⟨perm_of_comboKey_eq, comboKey_of_perm⟩, ?_, ?_, ?_, ?_⟩
  · have hmem : comboKey r ∈ a.results.map comboKey :=
      List.mem_map.mpr ⟨r, hr, rfl⟩
    have := mem_valueCounts hmem
    rwa [countOcc_map] at this
  · have := mem_valueCounts hr
    rwa [countOcc_eq_length_filter] at this
  · decide
  · decide

/-- Witness for C1 at the claim's concrete table `[[1,1],[3,2],[1,1]]`
with row `[3,2]`. -/
theorem combo_groups_permutation_separates_witness :
    (∀ r₁ r₂ : List ℕ, comboKey r₁ = comboKey r₂ ↔ r₁.Perm r₂)
    ∧ (comboKey [3, 2],
        (((⟨[[1, 1], [3, 2], [1, 1]]⟩ : Analyzer ℕ)).results.filter
          (fun row => comboKey row = comboKey [3, 2])).length)
        ∈ combo_count (⟨[[1, 1], [3, 2], [1, 1]]⟩ : Analyzer ℕ)
    ∧ ([3, 2],
        (((⟨[[1, 1], [3, 2], [1, 1]]⟩ : Analyzer ℕ)).results.filter
          (fun row => row = [3, 2])).length)
        ∈ permutation_count (⟨[[1, 1], [3, 2], [1, 1]]⟩ : Analyzer ℕ)
    ∧ combo_count (⟨[[2, 3], [3, 2]]⟩ : Analyzer ℕ) = [([2, 3], 2)]
    ∧ permutation_count (⟨[[2, 3], [3, 2]]⟩ : Analyzer ℕ)
        = [([2, 3], 1), ([3, 2], 1)] :=
  combo_groups_permutation_separates
    (⟨[[1, 1], [3, 2], [1, 1]]⟩ : Analyzer ℕ) [3, 2] (by decide)

/-- C2: `jackpot` returns exactly the number of rows in which every
cell is equal (one distinct value per row), and on the table produced
by a successful single-die play of `n` rolls it equals `n`. -/
theorem jackpot_counts_equal_rows {α : Type} [DecidableEq α]
    (a : Analyzer α) (d : Die α) (n : Nat) (rand : Nat → Nat → ℚ)
    (g' : Game α) (t : Table α)
    (hplay : play (mkGame [d]) n rand = (.ok (), g'))
    (ht : g'.playDf = some t) :
    jackpot a = (a.results.filter (fun row => allCellsEqual row)).length
    ∧ t.length = n ∧ jackpot ⟨t⟩ = n := by
  have hpt : ∀ row : List α,
      (decide (row.dedup.length = 1) : Bool) = allCellsEqual row := by
    intro row
    cases hb : allCellsEqual row
    · refine decide_eq_false ?_
      intro hc
      have := (dedup_length_one_iff row).mp hc
      rw [hb] at this
      cases this
    · exact decide_eq_true ((dedup_length_one_iff row).mpr hb)
  refine ⟨?_, ?_⟩
  · unfold jackpot
    rw [List.filter_congr (fun row _ => hpt row)]
  · rcases play_ok hplay with ⟨cols, hall, hdf, _⟩
    rw [ht] at hdf
    have hteq : t = toRows cols n := Option.some.inj hdf
    rcases rollAll_ok_shape hall with ⟨hclen, hcn⟩
    have hone : cols.length = 1 := by simpa [mkGame] using hclen
    have hne : cols ≠ [] := by
      intro h0
      rw [h0] at hone
      cases hone
    have htlen : t.length = n := by
      rw [hteq]
      exact toRows_length cols n hne
    refine ⟨htlen, ?_⟩
    have hrow : ∀ row ∈ t, row.length = 1 := by
      rw [hteq]
      intro row hrow
      rw [toRows_row_length cols n hcn row hrow, hone]
    have hall1 : ∀ row ∈ t, (decide (row.dedup.length = 1) : Bool) = true := by
      intro row hr
      refine decide_eq_true ?_
      rcases List.length_eq_one.mp (hrow row hr) with ⟨x, rfl⟩
      simp
    unfold jackpot
    rw [List.filter_eq_self.mpr hall1]
    exact htlen

/-- Witness for C2: a single one-faced die played for 2 rolls yields
the table `[[1],[1]]` and a jackpot count of 2. -/
theorem jackpot_counts_equal_rows_witness :
    jackpot (⟨[[1, 2], [3, 3]]⟩ : Analyzer ℕ)
      = ((⟨[[1, 2], [3, 3]]⟩ : Analyzer ℕ).results.filter
          (fun row => allCellsEqual row)).length
    ∧ ([[1], [1]] : Table ℕ).length = 2
    ∧ jackpot (⟨[[1], [1]]⟩ : Analyzer ℕ) = 2 :=
  jackpot_counts_equal_rows (⟨[[1, 2], [3, 3]]⟩ : Analyzer ℕ)
    ([(1, PyFloat.finite 1)] : Die ℕ) 2 (fun _ _ => 0)
    ⟨[[(1, PyFloat.finite 1)]], some [[1], [1]]⟩ [[1], [1]]
    (by norm_num [play, rollAll, roll, toRats, PyFloat.toRat, toRows,
      pickFrom, mkGame, List.range_succ, List.filterMap_cons]) rfl

/-- C3: `face_counts_per_roll` has one output row per roll; its column
set is the union of the faces observed anywhere in the snapshot; a face
absent from a given roll is present with the integer count `0` (never
missing); and each output row's counts sum to the number of generator
columns `g`. -/
theorem face_counts_shape {α : Type} [DecidableEq α] (a : Analyzer α)
    (g : Nat) (hrect : ∀ row ∈ a.results, row.length = g) :
    (face_counts_per_roll a).length = a.results.length
    ∧ (∀ fc ∈ face_counts_per_roll a, fc.map Prod.fst = allFaces a.results)
    ∧ (∀ fc ∈ face_counts_per_roll a,
        ∃ row ∈ a.results, fc = faceCountsRow (allFaces a.results) row
          ∧ ∀ f ∈ allFaces a.results, f ∉ row → (f, 0) ∈ fc)
    ∧ (∀ fc ∈ face_counts_per_roll a, (fc.map Prod.snd).sum = g) := by
  refine ⟨List.length_map _ _, ?_, ?_, ?_⟩
  · intro fc hfc
    rcases List.mem_map.mp hfc with ⟨row, _, rfl⟩
    unfold faceCountsRow
    rw [List.map_map]
    exact List.map_id _
  · intro fc hfc
    rcases List.mem_map.mp hfc with ⟨row, hrow, rfl⟩
    refine ⟨row, hrow, rfl, ?_⟩
    intro f hf hfrow
    have : (f, countOcc f row) ∈ faceCountsRow (allFaces a.results) row :=
      List.mem_map.mpr ⟨f, hf, rfl⟩
    rwa [(countOcc_eq_zero f row).mpr hfrow] at this
  · intro fc hfc
    rcases List.mem_map.mp hfc with ⟨row, hrow, rfl⟩
    unfold faceCountsRow
    rw [List.map_map]
    have hsum : ((allFaces a.results).map (fun f => countOcc f row)).sum
        = row.length :=
      sum_countOcc_eq_length _ row (List.nodup_dedup _)
        (fun x hx =>
          List.mem_dedup.mpr (List.mem_flatten.mpr ⟨row, hrow, hx⟩))
    calc ((allFaces a.results).map (Prod.snd ∘ fun f => (f, countOcc f row))).sum
        = ((allFaces a.results).map (fun f => countOcc f row)).sum := rfl
      _ = row.length := hsum
      _ = g := hrect row hrow

/-- Witness for C3 at the table `[[1,1],[2,3]]` with `g = 2`. -/
theorem face_counts_shape_witness :
    (face_counts_per_roll (⟨[[1, 1], [2, 3]]⟩ : Analyzer ℕ)).length
        = (⟨[[1, 1], [2, 3]]⟩ : Analyzer ℕ).results.length
    ∧ (∀ fc ∈ face_counts_per_roll (⟨[[1, 1], [2, 3]]⟩ : Analyzer ℕ),
        fc.map Prod.fst = allFaces (⟨[[1, 1], [2, 3]]⟩ : Analyzer ℕ).results)
    ∧ (∀ fc ∈ face_counts_per_roll (⟨[[1, 1], [2, 3]]⟩ : Analyzer ℕ),
        ∃ row ∈ (⟨[[1, 1], [2, 3]]⟩ : Analyzer ℕ).results,
          fc = faceCountsRow (allFaces (⟨[[1, 1], [2, 3]]⟩ : Analyzer ℕ).results) row
          ∧ ∀ f ∈ allFaces (⟨[[1, 1], [2, 3]]⟩ : Analyzer ℕ).results,
              f ∉ row → (f, 0) ∈ fc)
    ∧ (∀ fc ∈ face_counts_per_roll (⟨[[1, 1], [2, 3]]⟩ : Analyzer ℕ),
        (fc.map Prod.snd).sum = 2) :=
  face_counts_shape (⟨[[1, 1], [2, 3]]⟩ : Analyzer ℕ) 2 (by decide)

/-- C4: after a successful play of `n` rolls on `g > 0` dice, the wide
table has `n` rows of `g` cells; `show('narrow')` returns the stacked
table, which has `n * g` entries, whose (roll, die) index pairs are in
row-major order (primarily by roll, secondarily by die index), and
regrouping its outcome column into rows of `g` recovers the wide table
exactly. -/
theorem narrow_roundtrip {α : Type} (g0 : Game α) (n : Nat)
    (rand : Nat → Nat → ℚ) (g' : Game α) (t : Table α)
    (hg : 0 < g0.dice.length)
    (hplay : play g0 n rand = (.ok (), g'))
    (ht : g'.playDf = some t) :
    showForm g' "narrow" = .ok (.narrow (stack t))
    ∧ t.length = n
    ∧ (∀ row ∈ t, row.length = g0.dice.length)
    ∧ (stack t).length = n * g0.dice.length
    ∧ (stack t).map (fun e => (e.1, e.2.1)) = rowMajorPairs n g0.dice.length
    ∧ unstack g0.dice.length ((stack t).map (fun e => e.2.2)) = t := by
  rcases play_ok hplay with ⟨cols, hall, hdf, _⟩
  rw [ht] at hdf
  have hteq : t = toRows cols n := Option.some.inj hdf
  rcases rollAll_ok_shape hall with ⟨hclen, hcn⟩
  have hne : cols ≠ [] := by
    intro h0
    rw [h0] at hclen
    simp at hclen
    omega
  have htlen : t.length = n := by
    rw [hteq]
    exact toRows_length cols n hne
  have hrect : ∀ row ∈ t, row.length = g0.dice.length := by
    intro row hrow
    rw [hteq] at hrow
    rw [toRows_row_length cols n hcn row hrow, hclen]
  refine ⟨?_, htlen, hrect, ?_, ?_, ?_⟩
  · simp [showForm, ht]
  · rw [stack_length _ t hrect, htlen]
  · unfold stack
    rw [stackFrom_pairs _ t 0 hrect, htlen]
    simp only [rowMajorPairs, List.range_eq_range']
  · unfold stack
    rw [stackFrom_outcomes, unstack_flatten _ hg t hrect]

/-- Witness for C4: two one-faced dice played for two rolls. -/
theorem narrow_roundtrip_witness :
    showForm (⟨[[(1, PyFloat.finite 1)], [(1, PyFloat.finite 1)]],
        some [[1, 1], [1, 1]]⟩ : Game ℕ) "narrow"
      = .ok (.narrow (stack ([[1, 1], [1, 1]] : Table ℕ)))
    ∧ ([[1, 1], [1, 1]] : Table ℕ).length = 2
    ∧ (∀ row ∈ ([[1, 1], [1, 1]] : Table ℕ),
        row.length = (mkGame [([(1, PyFloat.finite 1)] : Die ℕ),
          [(1, PyFloat.finite 1)]]).dice.length)
    ∧ (stack ([[1, 1], [1, 1]] : Table ℕ)).length
        = 2 * (mkGame [([(1, PyFloat.finite 1)] : Die ℕ),
            [(1, PyFloat.finite 1)]]).dice.length
    ∧ (stack ([[1, 1], [1, 1]] : Table ℕ)).map (fun e => (e.1, e.2.1))
        = rowMajorPairs 2 (mkGame [([(1, PyFloat.finite 1)] : Die ℕ),
            [(1, PyFloat.finite 1)]]).dice.length
    ∧ unstack (mkGame [([(1, PyFloat.finite 1)] : Die ℕ),
          [(1, PyFloat.finite 1)]]).dice.length
        ((stack ([[1, 1], [1, 1]] : Table ℕ)).map (fun e => e.2.2))
        = [[1, 1], [1, 1]] :=
  narrow_roundtrip
    (mkGame [([(1, PyFloat.finite 1)] : Die ℕ), [(1, PyFloat.finite 1)]])
    2 (fun _ _ => 0)
    ⟨[[(1, PyFloat.finite 1)], [(1, PyFloat.finite 1)]],
      some [[1, 1], [1, 1]]⟩
    [[1, 1], [1, 1]] (by decide)
    (by norm_num [play, rollAll, roll, toRats, PyFloat.toRat, toRows,
      pickFrom, mkGame, List.range_succ, List.filterMap_cons]) rfl

/-- C5: if the `i`-th die's roll raises an error during `play` (all
earlier dice having rolled successfully), that same error is the
outcome of `play` and the game state — in particular `_play_df` — is
unchanged: it keeps its prior table, or stays unset if no play ever
succeeded. -/
theorem play_error_keeps_state {α : Type} (g : Game α) (n : Nat)
    (rand : Nat → Nat → ℚ) (i : Nat) (e : Err) (hi : i < g.dice.length)
    (he : roll (g.dice.get ⟨i, hi⟩) n (rand i) = .error e)
    (hok : ∀ j, (hj : j < i) →
      ∃ col, roll (g.dice.get ⟨j, Nat.lt_trans hj hi⟩) n (rand j)
        = .ok col) :
    play g n rand = (.error e, g) := by
  have he' : roll (g.dice.get ⟨i, hi⟩) n (rand (0 + i)) = .error e := by
    rw [Nat.zero_add]
    exact he
  have hok' : ∀ j, (hj : j < i) →
      ∃ col, roll (g.dice.get ⟨j, Nat.lt_trans hj hi⟩) n (rand (0 + j))
        = .ok col := by
    intro j hj
    rw [Nat.zero_add]
    exact hok j hj
  have hall := rollAll_error_of_first_fail g.dice n rand 0 i e hi he' hok'
  unfold play
  rw [hall]

/-- Witness for C5: a zero-weight die fails with `InvalidState` and the
game keeps its previously stored table `[[7]]`. -/
theorem play_error_keeps_state_witness :
    play (⟨[[(1, PyFloat.finite 0)]], some [[7]]⟩ : Game ℕ) 3 (fun _ _ => 0)
      = (.error .invalidState,
          (⟨[[(1, PyFloat.finite 0)]], some [[7]]⟩ : Game ℕ)) :=
  play_error_keeps_state (⟨[[(1, PyFloat.finite 0)]], some [[7]]⟩ : Game ℕ)
    3 (fun _ _ => 0) 0 .invalidState (by decide)
    (by norm_num [roll, toRats, PyFloat.toRat])
    (fun j hj => absurd hj (by omega))

/-- C6: `show` fails with `NoResultsYet` exactly when no play has
succeeded (`_play_df` unset, any form); with results present it fails
with `InvalidArgument` for any form other than `'wide'`/`'narrow'`; and
`Analyzer.__init__` fails exactly as the delegated `show(form='wide')`
does — in particular with `NoResultsYet` when the game has never been
played. -/
theorem show_and_analyzer_errors {α : Type} :
    (∀ (g : Game α) (form : String),
      showForm g form = .error .noResultsYet ↔ g.playDf = none)
    ∧ (∀ (g : Game α) (t : Table α) (form : String),
        g.playDf = some t → form ≠ "wide" → form ≠ "narrow" →
          showForm g form = .error .invalidForm)
    ∧ (∀ (g : Game α) (e : Err),
        mkAnalyzer g = .error e ↔ showForm g "wide" = .error e)
    ∧ (∀ (g : Game α), g.playDf = none →
        mkAnalyzer g = .error .noResultsYet) := by
  have hwide : ∀ (g : Game α) (l : List (Nat × Nat × α)),
      showForm g "wide" ≠ .ok (.narrow l) := by
    intro g l h
    cases hdf : g.playDf with
    | none => simp [showForm, hdf] at h
    | some t => simp [showForm, hdf] at h
  have h3 : ∀ (g : Game α) (e : Err),
      mkAnalyzer g = .error e ↔ showForm g "wide" = .error e := by
    intro g e
    unfold mkAnalyzer
    rcases hs : showForm g "wide" with e' | r
    · simp
    · rcases r with t | l
      · simp
      · exact absurd hs (hwide g l)
  have h1 : ∀ (g : Game α) (form : String),
      showForm g form = .error .noResultsYet ↔ g.playDf = none := by
    intro g form
    cases hdf : g.playDf with
    | none => simp [showForm, hdf]
    | some t =>
      simp only [showForm, hdf]
      by_cases hw : form = "wide"
      · simp [hw]
      · by_cases hn : form = "narrow" <;> simp [hw, hn]
  refine ⟨h1, ?_, h3, ?_⟩
  · intro g t form hdf hw hn
    simp [showForm, hdf, hw, hn]
  · intro g hdf
    rw [h3 g .noResultsYet, h1 g "wide"]
    exact hdf

/-- Witness for C6: a game with results rejects the form `'stacked'`
with `InvalidArgument`, and analyzing a never-played game fails with
`NoResultsYet`. -/
theorem show_and_analyzer_errors_witness :
    showForm (⟨[], some [[1]]⟩ : Game ℕ) "stacked" = .error .invalidForm
    ∧ mkAnalyzer (⟨[], none⟩ : Game ℕ) = .error .noResultsYet :=
  ⟨(show_and_analyzer_errors (α := ℕ)).2.1 ⟨[], some [[1]]⟩ [[1]] "stacked"
      rfl (by decide) (by decide),
    (show_and_analyzer_errors (α := ℕ)).2.2.2 ⟨[], none⟩ rfl⟩

/-- Counterexample to C7 as stated: `float(inf)` succeeds in Python, so
`change_weight` does *not* fail on the non-finite weight `inf` — it
stores it, contradicting "for every non-finite input such as infinity
or NaN the call fails and the weight mapping is unchanged". -/
theorem change_weight_accepts_inf :
    change_weight (mkDie [1, 2]) 1 PyValue.infVal
      = .ok [(1, PyFloat.inf), (2, PyFloat.finite 1)] := by
  simp [change_weight, mkDie, pyFloatOf, Die.faces]

/-- C7 amended: `change_weight` fails with `UnknownLabel` when the face
is not among the fixed labels; fails with `InvalidArgument`
(`TypeError`) exactly when the new weight cannot be converted to a
float at all; non-finite numeric values such as infinity and NaN
convert successfully and are stored as that label's new weight; on
success exactly that one label's weight is replaced (the label set and
all other labels' entries are unchanged). -/
theorem change_weight_amended {α : Type} [DecidableEq α] (d : Die α)
    (face : α) (w : PyValue) :
    (face ∉ d.faces → change_weight d face w = .error .unknownLabel)
    ∧ (face ∈ d.faces → pyFloatOf w = none →
        change_weight d face w = .error .notNumeric)
    ∧ (∀ pf, face ∈ d.faces → pyFloatOf w = some pf →
        change_weight d face w
          = .ok (d.map (fun p => if p.1 = face then (p.1, pf) else p)))
    ∧ (∀ pf : PyFloat,
        Die.faces (d.map (fun p => if p.1 = face then (p.1, pf) else p))
          = d.faces)
    ∧ (∀ pf : PyFloat, ∀ p ∈ d, p.1 ≠ face →
        p ∈ d.map (fun p => if p.1 = face then (p.1, pf) else p))
    ∧ (∀ pf : PyFloat,
        ∀ p ∈ d.map (fun p => if p.1 = face then (p.1, pf) else p),
          p.1 = face → p.2 = pf)
    ∧ pyFloatOf PyValue.infVal = some PyFloat.inf
    ∧ pyFloatOf PyValue.nanVal = some PyFloat.nan := by
  refine ⟨?_, ?_, ?_, ?_, ?_, ?_, rfl, rfl⟩
  · intro hni
    simp [change_weight, hni]
  · intro hmem hnone
    simp [change_weight, hmem, hnone]
  · intro pf hmem hsome
    simp [change_weight, hmem, hsome]
  · intro pf
    unfold Die.faces
    rw [List.map_map]
    refine List.map_congr_left ?_
    intro p _
    by_cases hp : p.1 = face <;> simp [hp]
  · intro pf p hp hne
    refine List.mem_map.mpr ⟨p, hp, ?_⟩
    simp [hne]
  · intro pf p hp hface
    rcases List.mem_map.mp hp with ⟨q, hq, hqe⟩
    by_cases hqf : q.1 = face
    · rw [if_pos hqf] at hqe
      rw [← hqe]
    · rw [if_neg hqf] at hqe
      rw [← hqe] at hface
      exact absurd hface hqf

/-- Witness for the amended C7: on the die with faces `[1, 2]`,
changing face 1's weight to `inf` succeeds and stores `inf`; an unknown
face fails with `UnknownLabel`; a non-numeric weight fails with
`TypeError`. -/
theorem change_weight_amended_witness :
    change_weight (mkDie [1, 2]) 1 PyValue.infVal
      = .ok ((mkDie [1, 2]).map
          (fun p => if p.1 = 1 then (p.1, PyFloat.inf) else p))
    ∧ change_weight (mkDie [1, 2]) 3 PyValue.infVal
      = .error .unknownLabel
    ∧ change_weight (mkDie [1, 2]) 1 PyValue.nonNumeric
      = .error .notNumeric :=
  ⟨(change_weight_amended (mkDie [1, 2]) 1 PyValue.infVal).2.2.1
      PyFloat.inf (by decide) rfl,
    (change_weight_amended (mkDie [1, 2]) 3 PyValue.infVal).1 (by decide),
    (change_weight_amended (mkDie [1, 2]) 1 PyValue.nonNumeric).2.1
      (by decide) rfl⟩

/-- C8: `roll` fails with `InvalidState` for every requested count when
the (finite) weights sum to zero; with all-positive weights on a
nonempty face list it succeeds and returns exactly `times` outcomes,
each a member of the die's face list, for any `times ≥ 0`. -/
theorem roll_zero_sum_and_positive {α : Type} (d : Die α) (times : Nat)
    (rand : Nat → ℚ) :
    (∀ qs, toRats (d.map Prod.snd) = some qs → qs.sum = 0 →
        roll d times rand = .error .invalidState)
    ∧ ((∀ p ∈ d, ∃ q : ℚ, p.2 = .finite q ∧ 0 < q) → d ≠ [] →
        ∃ l, roll d times rand = .ok l ∧ l.length = times
          ∧ ∀ x ∈ l, x ∈ d.faces) := by
  constructor
  · intro qs hqs hsum
    simp [roll, hqs, hsum]
  · intro hw hne
    rcases toRats_pos d hw with ⟨qs, hqs, hpos, hlen⟩
    have hqne : qs ≠ [] := by
      intro h0
      rw [h0] at hlen
      exact hne (List.length_eq_zero.mp hlen.symm)
    have hsum : 0 < qs.sum := List.sum_pos qs hpos hqne
    have hany : qs.any (fun q => decide (q / qs.sum < 0)) = false := by
      rw [List.any_eq_false]
      intro q hq
      simp only [decide_eq_true_eq]
      exact not_lt.mpr (le_of_lt (div_pos (hpos q hq) hsum))
    cases d with
    | nil => exact absurd rfl hne
    | cons p rest =>
      rcases p with ⟨a₀, w₀⟩
      refine ⟨(List.range times).map
          (fun k => pickFrom ((((a₀, w₀) :: rest).map Prod.fst).zip qs)
            (rand k * qs.sum) a₀), ?_, by simp, ?_⟩
      · simp only [roll, hqs]
        rw [if_neg hsum.ne', if_neg (by simp [hany])]
      · intro x hx
        rcases List.mem_map.mp hx with ⟨k, _, hpk⟩
        have hmem := pickFrom_mem
          ((((a₀, w₀) :: rest).map Prod.fst).zip qs) (rand k * qs.sum) a₀
        rw [hpk] at hmem
        have hzip : ((((a₀, w₀) :: rest).map Prod.fst).zip qs).map Prod.fst
            = ((a₀, w₀) :: rest).map Prod.fst := by
          refine List.map_fst_zip _ _ ?_
          rw [List.length_map, ← hlen]
        rw [hzip] at hmem
        rcases List.mem_cons.mp hmem with rfl | hmem
        · exact List.mem_cons_self x _
        · exact hmem

/-- Witness for C8: a two-faced die with zero weights fails with
`InvalidState`; with unit weights it rolls 3 faces from its face set. -/
theorem roll_zero_sum_and_positive_witness :
    roll ([(1, PyFloat.finite 0), (2, PyFloat.finite 0)] : Die ℕ) 3
        (fun _ => 0) = .error .invalidState
    ∧ ∃ l, roll ([(1, PyFloat.finite 1), (2, PyFloat.finite 1)] : Die ℕ)
          3 (fun _ => 0) = .ok l ∧ l.length = 3
        ∧ ∀ x ∈ l, x ∈ Die.faces
            ([(1, PyFloat.finite 1), (2, PyFloat.finite 1)] : Die ℕ) :=
  ⟨(roll_zero_sum_and_positive
      ([(1, PyFloat.finite 0), (2, PyFloat.finite 0)] : Die ℕ) 3
      (fun _ => 0)).1 [0, 0] rfl (by norm_num),
    (roll_zero_sum_and_positive
      ([(1, PyFloat.finite 1), (2, PyFloat.finite 1)] : Die ℕ) 3
      (fun _ => 0)).2
      (by
        intro p hp
        rcases List.mem_cons.mp hp with rfl | hp
        · exact ⟨1, rfl, one_pos⟩
        · rcases List.mem_cons.mp hp with rfl | hp
          · exact ⟨1, rfl, one_pos⟩
          · cases hp)
      (by simp)⟩

/-- C10: the counts in `combo_count` sum to the number of rows, and so
do the counts in `permutation_count` — every row is tallied under
exactly one key of each frequency table. -/
theorem count_totals {α : Type} [LinearOrder α] (a : Analyzer α) :
    ((combo_count a).map Prod.snd).sum = a.results.length
    ∧ ((permutation_count a).map Prod.snd).sum = a.results.length := by
  constructor
  · unfold combo_count
    rw [valueCounts_sum, List.length_map]
  · exact valueCounts_sum _

/-- C9: an analyzer's snapshot is a copy allocated at construction
time; a later `play` on the same game (which allocates a fresh
dataframe and rebinds `_play_df`) or a later `change_weight` on any of
the game's dice leaves the snapshot — and hence the outputs of all four
query operations — unchanged. -/
theorem analyzer_snapshot_immutable {α : Type} [LinearOrder α]
    (s s₁ : SysState α) (a : Nat)
    (h : mkAnalyzerS s = .ok (a, s₁)) :
    (∀ (n : Nat) (rand : Nat → Nat → ℚ),
      analyzerTable (playS s₁ n rand).2 a = analyzerTable s₁ a)
    ∧ (∀ (i : Nat) (face : α) (w : PyValue),
        analyzerTable (changeWeightS s₁ i face w).2 a = analyzerTable s₁ a)
    ∧ (∀ (n : Nat) (rand : Nat → Nat → ℚ),
        jackpot ⟨analyzerTable (playS s₁ n rand).2 a⟩
            = jackpot ⟨analyzerTable s₁ a⟩
        ∧ face_counts_per_roll ⟨analyzerTable (playS s₁ n rand).2 a⟩
            = face_counts_per_roll ⟨analyzerTable s₁ a⟩
        ∧ combo_count ⟨analyzerTable (playS s₁ n rand).2 a⟩
            = combo_count ⟨analyzerTable s₁ a⟩
        ∧ permutation_count ⟨analyzerTable (playS s₁ n rand).2 a⟩
            = permutation_count ⟨analyzerTable s₁ a⟩)
    ∧ (∀ (i : Nat) (face : α) (w : PyValue),
        jackpot ⟨analyzerTable (changeWeightS s₁ i face w).2 a⟩
            = jackpot ⟨analyzerTable s₁ a⟩
        ∧ face_counts_per_roll ⟨analyzerTable (changeWeightS s₁ i face w).2 a⟩
            = face_counts_per_roll ⟨analyzerTable s₁ a⟩
        ∧ combo_count ⟨analyzerTable (changeWeightS s₁ i face w).2 a⟩
            = combo_count ⟨analyzerTable s₁ a⟩
        ∧ permutation_count ⟨analyzerTable (changeWeightS s₁ i face w).2 a⟩
            = permutation_count ⟨analyzerTable s₁ a⟩) := by
  have ha : a < s₁.tables.length := by
    unfold mkAnalyzerS at h
    split at h
    · cases h
    · split at h
      · cases h
      · cases h
        simp
  have hplay : ∀ (n : Nat) (rand : Nat → Nat → ℚ),
      analyzerTable (playS s₁ n rand).2 a = analyzerTable s₁ a := by
    intro n rand
    unfold playS
    rcases hall : rollAll s₁.dice n rand 0 with e | cols
    · rfl
    · unfold analyzerTable
      simp only
      rw [List.get?_eq_getElem?, List.get?_eq_getElem?,
        List.getElem?_append_left ha]
  have hcw : ∀ (i : Nat) (face : α) (w : PyValue),
      analyzerTable (changeWeightS s₁ i face w).2 a = analyzerTable s₁ a := by
    intro i face w
    unfold changeWeightS
    split
    · rfl
    · split
      · rfl
      · rfl
  refine ⟨hplay, hcw, ?_, ?_⟩
  · intro n rand
    rw [hplay n rand]
    exact ⟨rfl, rfl, rfl, rfl⟩
  · intro i face w
    rw [hcw i face w]
    exact ⟨rfl, rfl, rfl, rfl⟩

/-- Witness for C9 at a store holding one results table `[[1]]`. -/
theorem analyzer_snapshot_immutable_witness :
    (∀ (n : Nat) (rand : Nat → Nat → ℚ),
      analyzerTable
          (playS (⟨[[[1]], [[1]]], [], some 0⟩ : SysState ℕ) n rand).2 1
        = analyzerTable (⟨[[[1]], [[1]]], [], some 0⟩ : SysState ℕ) 1)
    ∧ (∀ (i : Nat) (face : ℕ) (w : PyValue),
        analyzerTable
            (changeWeightS (⟨[[[1]], [[1]]], [], some 0⟩ : SysState ℕ)
              i face w).2 1
          = analyzerTable (⟨[[[1]], [[1]]], [], some 0⟩ : SysState ℕ) 1)
    ∧ (∀ (n : Nat) (rand : Nat → Nat → ℚ),
        jackpot ⟨analyzerTable
            (playS (⟨[[[1]], [[1]]], [], some 0⟩ : SysState ℕ) n rand).2 1⟩
            = jackpot ⟨analyzerTable
                (⟨[[[1]], [[1]]], [], some 0⟩ : SysState ℕ) 1⟩
        ∧ face_counts_per_roll ⟨analyzerTable
            (playS (⟨[[[1]], [[1]]], [], some 0⟩ : SysState ℕ) n rand).2 1⟩
            = face_counts_per_roll ⟨analyzerTable
                (⟨[[[1]], [[1]]], [], some 0⟩ : SysState ℕ) 1⟩
        ∧ combo_count ⟨analyzerTable
            (playS (⟨[[[1]], [[1]]], [], some 0⟩ : SysState ℕ) n rand).2 1⟩
            = combo_count ⟨analyzerTable
                (⟨[[[1]], [[1]]], [], some 0⟩ : SysState ℕ) 1⟩
        ∧ permutation_count ⟨analyzerTable
            (playS (⟨[[[1]], [[1]]], [], some 0⟩ : SysState ℕ) n rand).2 1⟩
            = permutation_count ⟨analyzerTable
                (⟨[[[1]], [[1]]], [], some 0⟩ : SysState ℕ) 1⟩)
    ∧ (∀ (i : Nat) (face : ℕ) (w : PyValue),
        jackpot ⟨analyzerTable
            (changeWeightS (⟨[[[1]], [[1]]], [], some 0⟩ : SysState ℕ)
              i face w).2 1⟩
            = jackpot ⟨analyzerTable
                (⟨[[[1]], [[1]]], [], some 0⟩ : SysState ℕ) 1⟩
        ∧ face_counts_per_roll ⟨analyzerTable
            (changeWeightS (⟨[[[1]], [[1]]], [], some 0⟩ : SysState ℕ)
              i face w).2 1⟩
            = face_counts_per_roll ⟨analyzerTable
                (⟨[[[1]], [[1]]], [], some 0⟩ : SysState ℕ) 1⟩
        ∧ combo_count ⟨analyzerTable
            (changeWeightS (⟨[[[1]], [[1]]], [], some 0⟩ : SysState ℕ)
              i face w).2 1⟩
            = combo_count ⟨analyzerTable
                (⟨[[[1]], [[1]]], [], some 0⟩ : SysState ℕ) 1⟩
        ∧ permutation_count ⟨analyzerTable
            (changeWeightS (⟨[[[1]], [[1]]], [], some 0⟩ : SysState ℕ)
              i face w).2 1⟩
            = permutation_count ⟨analyzerTable
                (⟨[[[1]], [[1]]], [], some 0⟩ : SysState ℕ) 1⟩) :=
  analyzer_snapshot_immutable (⟨[[[1]]], [], some 0⟩ : SysState ℕ)
    (⟨[[[1]], [[1]]], [], some 0⟩ : SysState ℕ) 1 rfl

end MonteCarlo
